import Mathlib

/-!
Verification of the filter-parsing core of a document-management MCP server
(`src/tools/filter_parser.py`): `parse_filter_string`, `_optimize_range_filters`,
`_convert_value` and `format_filters_for_api`, shallowly embedded in Lean.

Python values flowing through the parser (dict values) are modelled by the
inductive `PyVal`; Python floats are modelled as exact rationals parsed from the
literal (no claim under scrutiny depends on IEEE rounding); Python dicts are
modelled as insertion-ordered association lists with unique keys; Python
exceptions are modelled with `Except String`.
-/

namespace Frappe

/-- A Python value as it occurs in the parser's output dictionaries:
int, float, bool, str, or a (nested) list of such values. -/
inductive PyVal where
  | int (n : Int)
  | float (q : Rat)
  | bool (b : Bool)
  | str (s : String)
  | list (xs : List PyVal)
  deriving Repr

mutual

/-- Structural equality test on `PyVal` (nested inductive, so written by hand). -/
def pyValBeq : PyVal → PyVal → Bool
  | .int a, .int b => a == b
  | .float a, .float b => a == b
  | .bool a, .bool b => a == b
  | .str a, .str b => a == b
  | .list a, .list b => pyValListBeq a b
  | _, _ => false

/-- Structural equality test on lists of `PyVal`. -/
def pyValListBeq : List PyVal → List PyVal → Bool
  | [], [] => true
  | a :: as, b :: bs => pyValBeq a b && pyValListBeq as bs
  | _, _ => false

end

mutual

theorem pyValBeq_iff : ∀ (a b : PyVal), pyValBeq a b = true ↔ a = b
  | .int a, .int b => by simp [pyValBeq]
  | .float a, .float b => by simp [pyValBeq]
  | .bool a, .bool b => by simp [pyValBeq]
  | .str a, .str b => by simp [pyValBeq]
  | .list a, .list b => by
    simp only [pyValBeq, PyVal.list.injEq]
    exact pyValListBeq_iff a b
  | .int a, .float b => by simp [pyValBeq]
  | .int a, .bool b => by simp [pyValBeq]
  | .int a, .str b => by simp [pyValBeq]
  | .int a, .list b => by simp [pyValBeq]
  | .float a, .int b => by simp [pyValBeq]
  | .float a, .bool b => by simp [pyValBeq]
  | .float a, .str b => by simp [pyValBeq]
  | .float a, .list b => by simp [pyValBeq]
  | .bool a, .int b => by simp [pyValBeq]
  | .bool a, .float b => by simp [pyValBeq]
  | .bool a, .str b => by simp [pyValBeq]
  | .bool a, .list b => by simp [pyValBeq]
  | .str a, .int b => by simp [pyValBeq]
  | .str a, .float b => by simp [pyValBeq]
  | .str a, .bool b => by simp [pyValBeq]
  | .str a, .list b => by simp [pyValBeq]
  | .list a, .int b => by simp [pyValBeq]
  | .list a, .float b => by simp [pyValBeq]
  | .list a, .bool b => by simp [pyValBeq]
  | .list a, .str b => by simp [pyValBeq]

theorem pyValListBeq_iff : ∀ (xs ys : List PyVal), pyValListBeq xs ys = true ↔ xs = ys
  | [], [] => by simp [pyValListBeq]
  | [], _ :: _ => by simp [pyValListBeq]
  | _ :: _, [] => by simp [pyValListBeq]
  | x :: xs, y :: ys => by
    simp only [pyValListBeq, Bool.and_eq_true, List.cons.injEq]
    exact and_congr (pyValBeq_iff x y) (pyValListBeq_iff xs ys)

end

instance : DecidableEq PyVal := fun a b => decidable_of_iff _ (pyValBeq_iff a b)

/-- Python whitespace characters stripped by `str.strip()` (ASCII subset;
the parser is only exercised on ASCII input). -/
def isPyWs (c : Char) : Bool :=
  c == ' ' || c == '\t' || c == '\n' || c == '\r' || c == '\x0b' || c == '\x0c'

/-- `str.strip()` on a character list. -/
def pyStripL (cs : List Char) : List Char :=
  ((cs.dropWhile isPyWs).reverse.dropWhile isPyWs).reverse

/-- `str.lower()` on a character list (ASCII). -/
def lowerL (cs : List Char) : List Char := cs.map Char.toLower

/-- `str.replace('_', ' ')` on a character list (single-character pattern,
hence a per-character map). -/
def replUnd (cs : List Char) : List Char :=
  cs.map (fun c => if c == '_' then ' ' else c)

/-- Python `s.split(sep)` for a single-character separator: always returns at
least one (possibly empty) piece, e.g. `"".split(',') == [""]`. -/
def splitOnChar (sep : Char) : List Char → List (List Char)
  | [] => [[]]
  | c :: rest =>
    if c == sep then [] :: splitOnChar sep rest
    else
      match splitOnChar sep rest with
      | g :: gs => (c :: g) :: gs
      | [] => [[c]]

/-- Rejoin pieces with `':'`, used to model `split(':', 2)`'s unsplit tail. -/
def joinColon : List (List Char) → List Char
  | [] => []
  | [g] => g
  | g :: gs => g ++ ':' :: joinColon gs

/-- Python `part.split(':', 2)`: at most two splits, the remainder of the
string (colons included) forming the third piece. -/
def splitColon2 (cs : List Char) : List (List Char) :=
  let ps := splitOnChar ':' cs
  if ps.length ≤ 3 then ps else ps.take 2 ++ [joinColon (ps.drop 2)]

/-- Does a character list start with a digit? (lookahead for the underscore
rule of Python numeric literals). -/
def expectDigit : List Char → Bool
  | d :: _ => d.isDigit
  | [] => false

/-- Tail of a Python numeric digit group after its first digit: digits with
single underscores allowed only between digits (`int("1_0")` is legal,
`int("1__0")`, `int("1_")` are not). -/
def dgTail : List Char → Bool
  | [] => true
  | c :: rest => (c.isDigit || (c == '_' && expectDigit rest)) && dgTail rest

/-- A legal Python digit group: nonempty, starts with a digit, underscores
only between digits. -/
def dgOk : List Char → Bool
  | [] => false
  | c :: rest => c.isDigit && dgTail rest

/-- Numeric value of a digit group, skipping underscores. -/
def digitsVal (g : List Char) : Int :=
  g.foldl (fun acc c => if c == '_' then acc else acc * 10 + (c.toNat - '0'.toNat : Nat)) 0

/-- Number of actual digits in a digit group (underscores excluded). -/
def digitsCount (g : List Char) : Nat := g.countP (fun c => c.isDigit)

/-- Python `int(s)` on an already-stripped string: optional sign, then a legal
digit group.  (`int()` itself also strips whitespace, but every call site in
`_convert_value` passes an already-stripped string.) -/
def pyInt? (cs : List Char) : Option Int :=
  match cs with
  | '+' :: rest => if dgOk rest then some (digitsVal rest) else none
  | '-' :: rest => if dgOk rest then some (-(digitsVal rest)) else none
  | _ => if dgOk cs then some (digitsVal cs) else none

/-- Split a float literal at its first exponent marker `e`/`E`. -/
def expSplit (cs : List Char) : List Char × Option (List Char) :=
  let m := cs.takeWhile (fun c => !(c == 'e' || c == 'E'))
  match cs.dropWhile (fun c => !(c == 'e' || c == 'E')) with
  | [] => (m, none)
  | _ :: rest => (m, some rest)

/-- Value of a fractional digit group `fp` read after the decimal point. -/
def fracVal (fp : List Char) : Rat :=
  (digitsVal fp : Rat) / ((10 : Rat) ^ (digitsCount fp))

/-- Python `float(s)` on an already-stripped string, as an exact rational:
optional sign, mantissa `digits[.digits]` / `.digits` / `digits.`, optional
exponent.  The `inf`/`infinity`/`nan` word forms are omitted: they contain no
`'.'`, and `_convert_value` only calls `float` on strings containing `'.'`. -/
def pyFloat? (cs : List Char) : Option Rat :=
  let signBody : Bool × List Char :=
    match cs with
    | '+' :: r => (false, r)
    | '-' :: r => (true, r)
    | _ => (false, cs)
  let neg := signBody.1
  let (mant, expo) := expSplit signBody.2
  let ip := mant.takeWhile (fun c => c != '.')
  let mv : Option Rat :=
    match mant.dropWhile (fun c => c != '.') with
    | [] => if dgOk ip then some ((digitsVal ip : Rat)) else none
    | _ :: fp =>
      if fp.contains '.' then none
      else if dgOk ip && (fp.isEmpty || dgOk fp) then
        some ((digitsVal ip : Rat) + fracVal fp)
      else if ip.isEmpty && dgOk fp then some (fracVal fp)
      else none
  let ev : Option Int :=
    match expo with
    | none => some 0
    | some e =>
      let esignBody : Bool × List Char :=
        match e with
        | '+' :: r => (false, r)
        | '-' :: r => (true, r)
        | _ => (false, e)
      if dgOk esignBody.2 then
        some (if esignBody.1 then -(digitsVal esignBody.2) else digitsVal esignBody.2)
      else none
  match mv, ev with
  | some m, some e => some ((if neg then -m else m) * (10 : Rat) ^ e)
  | _, _ => none

/-- Lines 176-183 of `filter_parser.py` (reached when the numeric conversion
raised `ValueError`): the case-insensitive boolean word forms, else the
stripped string itself. -/
def boolOrStr (v : List Char) : PyVal :=
  let vl := lowerL v
  if vl == "true".toList || vl == "yes".toList || vl == "1".toList then .bool true
  else if vl == "false".toList || vl == "no".toList || vl == "0".toList then .bool false
  else .str v.asString

/-- `_convert_value` from `filter_parser.py` (lines 163-183): strip, then try
`float` (iff the string contains `'.'`) or else `int`; on `ValueError` fall
back to the boolean word forms and finally the string itself. -/
def _convert_value (value_str : List Char) : PyVal :=
  let v := pyStripL value_str
  if v.contains '.' then
    match pyFloat? v with
    | some q => .float q
    | none => boolOrStr v
  else
    match pyInt? v with
    | some n => .int n
    | none => boolOrStr v

/-- The parser's `filters_dict`: a Python dict modelled as an insertion-ordered
association list with unique keys. -/
abbrev FilterDict := List (String × PyVal)

/-- Python `field in filters_dict` / `filters_dict[field]` (lookup). -/
def dlookup : FilterDict → String → Option PyVal
  | [], _ => none
  | (k, v) :: rest, f => if k = f then some v else dlookup rest f

/-- Python `filters_dict[field] = v`: update in place if the key exists
(position preserved), else append at the end (dict insertion order). -/
def dset : FilterDict → String → PyVal → FilterDict
  | [], f, v => [(f, v)]
  | (k, w) :: rest, f, v => if k = f then (k, v) :: rest else (k, w) :: dset rest f v

/-- The guard on line 83/98 of `filter_parser.py`, negated: the stored value is
appended to directly (no re-wrap) iff it is a list of length exactly 2 whose
first element is itself a list. -/
def isCondPair : PyVal → Bool
  | .list [x, _] => match x with | .list _ => true | _ => false
  | _ => false

/-- One accumulation step on an already-present field value (lines 81-86 /
96-101): re-wrap the stored value into a one-element list unless it passes
`isCondPair`, then append the new condition. -/
def appendCond (v cond : PyVal) : PyVal :=
  match v with
  | .list l =>
    if isCondPair (.list l) then .list (l ++ [cond]) else .list [.list l, cond]
  | _ => .list [v, cond]

/-- Store a condition for `field` in the dict: directly if the field is new,
via `appendCond` if the field already has a value. -/
def addCondition (d : FilterDict) (field : String) (cond : PyVal) : FilterDict :=
  match dlookup d field with
  | none => dset d field cond
  | some v => dset d field (appendCond v cond)

/-- The operator-dispatch block of `parse_filter_string` (lines 44-78), for a
3-component clause: builds the filter condition from the stripped operator and
the raw value string, raising (as `Except.error`) only for a `between` clause
whose value does not split into exactly two `|`-separated tokens. -/
def buildCondition (operator value_str : List Char) : Except String PyVal :=
  let opl := lowerL operator
  if opl == "in".toList || opl == "not_in".toList then
    let values := (splitOnChar '|' value_str).map pyStripL
    .ok (.list [.str (replUnd operator).asString, .list (values.map _convert_value)])
  else if opl == "between".toList then
    let range_values := (splitOnChar '|' value_str).map pyStripL
    if range_values.length = 2 then
      .ok (.list [.str operator.asString, .list (range_values.map _convert_value)])
    else
      .error ("Between operator requires exactly 2 values separated by |, got: "
        ++ value_str.asString)
  else if opl == "is".toList || opl == "is_not".toList then
    let vl := lowerL value_str
    if vl == "null".toList || vl == "none".toList || vl == "empty".toList then
      .ok (.list [.str (replUnd operator).asString, .str "not set"])
    else if vl == "not_null".toList || vl == "not_none".toList || vl == "not_empty".toList then
      .ok (.list [.str (replUnd operator).asString, .str "set"])
    else
      .ok (.list [.str (replUnd operator).asString, _convert_value value_str])
  else if opl == "not_like".toList then
    .ok (.list [.str "not like", .str value_str.asString])
  else
    .ok (.list [.str operator.asString, _convert_value value_str])

/-- The body of the main loop of `parse_filter_string` (lines 31-103) for one
comma-separated part: strip it, skip it when it has no colon, otherwise split
on the first two colons and accumulate the resulting condition. -/
def processPart (d : FilterDict) (rawPart : List Char) : Except String FilterDict :=
  let part := pyStripL rawPart
  if part.contains ':' then
    match splitColon2 part with
    | c0 :: c1 :: c2 :: _ =>
      match buildCondition (pyStripL c1) c2 with
      | .ok cond => .ok (addCondition d (pyStripL c0).asString cond)
      | .error e => .error e
    | [c0, c1] =>
      .ok (addCondition d (pyStripL c0).asString (_convert_value c1))
    | _ => .ok d
  else .ok d

/-- The accumulation phase of `parse_filter_string`: split on commas and fold
the per-part step over an initially empty dict (the state of `filters_dict`
just before the `_optimize_range_filters` post-pass on line 106). -/
def parseAccum (filter_str : String) : Except String FilterDict :=
  (splitOnChar ',' filter_str.toList).foldlM processPart []

/-- Python `condition == ">="`-style comparison: a `PyVal` equals a string
literal iff it is that very string (no Python cross-type equality involves
`str`). -/
def pyIsStr (p : PyVal) (s : String) : Bool :=
  match p with
  | .str t => t == s
  | _ => false

/-- The scanning loop of `_optimize_range_filters` (lines 131-141): walk the
conditions, remembering the last `[">=", v]` value, the last `["<=", v]`
value, and every other condition in order. -/
def scanConds : List PyVal → Option PyVal → Option PyVal → List PyVal →
    Option PyVal × Option PyVal × List PyVal
  | [], g, lt, others => (g, lt, others)
  | c :: rest, g, lt, others =>
    match c with
    | .list [o, v] =>
      if pyIsStr o ">=" then scanConds rest (some v) lt others
      else if pyIsStr o "<=" then scanConds rest g (some v) others
      else scanConds rest g lt (others ++ [c])
    | _ => scanConds rest g lt (others ++ [c])

/-- `_optimize_range_filters` on a single field's value (lines 123-158): for a
list of at least two conditions, merge a found `>=`/`<=` pair into a single
`between` condition (sole value if nothing else remains, else prepended);
everything else passes through unchanged. -/
def optField (conditions : PyVal) : PyVal :=
  match conditions with
  | .list l =>
    if 2 ≤ l.length then
      match scanConds l none none [] with
      | (some g, some lt, others) =>
        let between_condition := PyVal.list [.str "between", .list [g, lt]]
        if others.isEmpty then between_condition
        else .list (between_condition :: others)
      | _ => conditions
    else conditions
  | _ => conditions

/-- `_optimize_range_filters` (lines 111-160): apply `optField` to every
field's value, keys and order untouched. -/
def _optimize_range_filters (d : FilterDict) : FilterDict :=
  d.map (fun p => (p.1, optField p.2))

/-- `parse_filter_string` (lines 11-108): accumulate per-field conditions over
the comma-separated clauses, then run the range-optimization post-pass. -/
def parse_filter_string (filter_str : String) : Except String FilterDict :=
  match parseAccum filter_str with
  | .ok d => .ok (_optimize_range_filters d)
  | .error e => .error e

/-- `format_filters_for_api` (lines 186-198): `None` and the empty string
(the falsy strings) map to `None`, anything else is parsed. -/
def format_filters_for_api : Option String → Except String (Option FilterDict)
  | none => .ok none
  | some s =>
    if s = "" then .ok none
    else match parse_filter_string s with
      | .ok d => .ok (some d)
      | .error e => .error e

/-! ### Specification-side definitions

The following definitions are written from the spec's wording (§4.2 and §4.3),
to be compared with the code-derived definitions above. -/

/-- The `>=` bound a condition contributes, per the spec's "pulling out at most
one `>=` predicate": `some v` exactly for a two-element condition
`[">=", v]`. -/
def getGte : PyVal → Option PyVal
  | .list [o, v] => if pyIsStr o ">=" then some v else none
  | _ => none

/-- The `<=` bound a condition contributes: `some v` exactly for `["<=", v]`. -/
def getLte : PyVal → Option PyVal
  | .list [o, v] => if pyIsStr o "<=" then some v else none
  | _ => none

/-- A condition consumed by the range scan (a `>=` or `<=` pair). -/
def isBound (c : PyVal) : Bool := (getGte c).isSome || (getLte c).isSome

/-- Spec §4.2: "collecting all other predicates unchanged, in original
order". -/
def nonBounds (l : List PyVal) : List PyVal := l.filter (fun c => !isBound c)

/-- First-biased choice on options (`a` if present, else `b`). -/
def optOr {α : Type} : Option α → Option α → Option α
  | some x, _ => some x
  | none, b => b

/-- Spec §4.2: the `>=` value retained by the scan — "last one of each kind
wins if duplicated". -/
def lastGte (l : List PyVal) : Option PyVal := (l.filterMap getGte).getLast?

/-- Spec §4.2: the `<=` value retained by the scan, last one winning. -/
def lastLte (l : List PyVal) : Option PyVal := (l.filterMap getLte).getLast?

/-- A field value that is "already a list of ≥2 predicates" (spec §4.2). -/
def isMultiCondList : PyVal → Bool
  | .list l => decide (2 ≤ l.length)
  | _ => false

/-- Value coercion written from the spec's §4.3 ordered rules: trim; if the
token contains `'.'` and parses fully as a float literal, the float; else if
it parses fully as an integer literal, the integer; else the boolean word
forms; else the trimmed token as a string. -/
def coerceSpec (token : List Char) : PyVal :=
  let t := pyStripL token
  match (if t.contains '.' then pyFloat? t else none) with
  | some q => .float q
  | none =>
    match pyInt? t with
    | some n => .int n
    | none => boolOrStr t

/-! ### Helper lemmas -/

theorem contains_iff_mem (cs : List Char) (c : Char) : cs.contains c = true ↔ c ∈ cs :=
  ⟨List.mem_of_elem_eq_true, List.elem_eq_true_of_mem⟩

theorem dgTail_chars (g : List Char) (h : dgTail g = true) :
    ∀ c ∈ g, c.isDigit = true ∨ c = '_' := by
  induction g with
  | nil => intro c hc; exact absurd hc (List.not_mem_nil c)
  | cons a rest ih =>
    rw [dgTail, Bool.and_eq_true] at h
    intro c hc
    rcases List.mem_cons.mp hc with rfl | hc2
    · rcases Bool.or_eq_true_iff.mp h.1 with hd | hu
      · exact Or.inl hd
      · exact Or.inr (beq_iff_eq.mp ((Bool.and_eq_true _ _).mp hu).1)
    · exact ih h.2 c hc2

theorem dgOk_chars (g : List Char) (h : dgOk g = true) :
    ∀ c ∈ g, c.isDigit = true ∨ c = '_' := by
  cases g with
  | nil => simp [dgOk] at h
  | cons a rest =>
    rw [dgOk, Bool.and_eq_true] at h
    intro c hc
    rcases List.mem_cons.mp hc with rfl | hc2
    · exact Or.inl h.1
    · exact dgTail_chars rest h.2 c hc2

theorem dgOk_no_dot (g : List Char) (h : '.' ∈ g) : dgOk g = false := by
  cases hog : dgOk g with
  | false => rfl
  | true =>
    rcases dgOk_chars g hog '.' h with h1 | h1
    · exact absurd h1 (by decide)
    · exact absurd h1 (by decide)

theorem pyInt?_none_of_dot (cs : List Char) (h : '.' ∈ cs) : pyInt? cs = none := by
  unfold pyInt?
  split
  · next rest =>
    have h2 : '.' ∈ rest := by
      rcases List.mem_cons.mp h with h3 | h3
      · exact absurd h3 (by decide)
      · exact h3
    rw [dgOk_no_dot rest h2]
    rfl
  · next rest =>
    have h2 : '.' ∈ rest := by
      rcases List.mem_cons.mp h with h3 | h3
      · exact absurd h3 (by decide)
      · exact h3
    rw [dgOk_no_dot rest h2]
    rfl
  · rw [dgOk_no_dot cs h]
    rfl

theorem splitOnChar_no_sep (sep : Char) (cs : List Char) (h : cs.contains sep = false) :
    splitOnChar sep cs = [cs] := by
  induction cs with
  | nil => rfl
  | cons c rest ih =>
    have hmem : ¬ sep ∈ (c :: rest) := by
      intro hm
      rw [← contains_iff_mem] at hm
      rw [h] at hm
      exact Bool.false_ne_true hm
    have hc : (c == sep) = false := by
      cases hb : c == sep
      · rfl
      · exact absurd (by rw [beq_iff_eq.mp hb]; exact List.mem_cons_self sep rest) hmem
    have hrest : rest.contains sep = false := by
      cases hb : rest.contains sep
      · rfl
      · exact absurd (List.mem_cons_of_mem c (contains_iff_mem rest sep |>.mp hb)) hmem
    rw [splitOnChar, hc, ih hrest]
    rfl

theorem optOr_none_right {α : Type} (a : Option α) : optOr a none = a := by
  cases a <;> rfl

theorem optOr_assoc {α : Type} (a b c : Option α) :
    optOr (optOr a b) c = optOr a (optOr b c) := by
  cases a <;> rfl

theorem getLast?_cons_or {α : Type} (a : α) (xs : List α) :
    (a :: xs).getLast? = optOr xs.getLast? (some a) := by
  cases xs with
  | nil => rfl
  | cons b ys =>
    rw [List.getLast?_cons_cons]
    obtain ⟨y, hy⟩ : ∃ y, (b :: ys).getLast? = some y :=
      Option.isSome_iff_exists.mp (by simp [List.getLast?_isSome])
    rw [hy]
    rfl

theorem pyIsStr_iff (o : PyVal) (s : String) : pyIsStr o s = true ↔ o = .str s := by
  cases o <;> simp [pyIsStr]

theorem getLte_none_of_getGte_some (c : PyVal) (v : PyVal) (h : getGte c = some v) :
    getLte c = none := by
  cases c with
  | list xs =>
    rcases xs with _ | ⟨o, _ | ⟨w, _ | ⟨u, us⟩⟩⟩ <;> simp [getGte] at h
    obtain ⟨ho, _⟩ := h
    have : o = .str ">=" := (pyIsStr_iff o ">=").mp ho
    subst this
    simp [getLte, pyIsStr]
  | int n => simp [getGte] at h
  | float q => simp [getGte] at h
  | bool b => simp [getGte] at h
  | str s => simp [getGte] at h

theorem scanConds_cons (c : PyVal) (rest : List PyVal) (g lt : Option PyVal)
    (others : List PyVal) :
    scanConds (c :: rest) g lt others =
      match getGte c, getLte c with
      | some v, _ => scanConds rest (some v) lt others
      | none, some v => scanConds rest g (some v) others
      | none, none => scanConds rest g lt (others ++ [c]) := by
  cases c with
  | list xs =>
    rcases xs with _ | ⟨o, _ | ⟨v, _ | ⟨w, ws⟩⟩⟩
    · rfl
    · rfl
    · by_cases h1 : pyIsStr o ">=" = true
      · simp [scanConds, getGte, getLte, h1, getLte_none_of_getGte_some (.list [o, v]) v
          (by simp [getGte, h1])]
      · by_cases h2 : pyIsStr o "<=" = true
        · simp [scanConds, getGte, getLte, h1, h2]
        · simp [scanConds, getGte, getLte, h1, h2]
    · rfl
  | int n => rfl
  | float q => rfl
  | bool b => rfl
  | str s => rfl

theorem lastGte_cons (c : PyVal) (l : List PyVal) :
    lastGte (c :: l) = optOr (lastGte l) (getGte c) := by
  rw [lastGte, List.filterMap_cons]
  cases hgc : getGte c
  · rw [optOr_none_right]; rfl
  · rw [getLast?_cons_or]; rfl

theorem lastLte_cons (c : PyVal) (l : List PyVal) :
    lastLte (c :: l) = optOr (lastLte l) (getLte c) := by
  rw [lastLte, List.filterMap_cons]
  cases hlc : getLte c
  · rw [optOr_none_right]; rfl
  · rw [getLast?_cons_or]; rfl

theorem nonBounds_cons_bound (c : PyVal) (l : List PyVal) (h : isBound c = true) :
    nonBounds (c :: l) = nonBounds l := by
  rw [nonBounds, List.filter_cons, h]
  rfl

theorem nonBounds_cons_nonbound (c : PyVal) (l : List PyVal) (h : isBound c = false) :
    nonBounds (c :: l) = c :: nonBounds l := by
  rw [nonBounds, List.filter_cons, h]
  rfl

theorem scanConds_eq (l : List PyVal) : ∀ (g lt : Option PyVal) (acc : List PyVal),
    scanConds l g lt acc = (optOr (lastGte l) g, optOr (lastLte l) lt, acc ++ nonBounds l) := by
  induction l with
  | nil =>
    intro g lt acc
    simp [scanConds, lastGte, lastLte, nonBounds, optOr]
  | cons c rest ih =>
    intro g lt acc
    rw [scanConds_cons, lastGte_cons, lastLte_cons]
    cases hgc : getGte c with
    | some v =>
      have hlc : getLte c = none := getLte_none_of_getGte_some c v hgc
      have hb : isBound c = true := by simp [isBound, hgc]
      rw [hlc, optOr_none_right, optOr_assoc, nonBounds_cons_bound c rest hb]
      show scanConds rest (some v) lt acc = _
      rw [ih]
      rfl
    | none =>
      rw [optOr_none_right]
      cases hlc : getLte c with
      | some v =>
        have hb : isBound c = true := by simp [isBound, hlc]
        rw [optOr_assoc, nonBounds_cons_bound c rest hb]
        show scanConds rest g (some v) acc = _
        rw [ih]
        rfl
      | none =>
        have hb : isBound c = false := by simp [isBound, hgc, hlc]
        rw [optOr_none_right, nonBounds_cons_nonbound c rest hb]
        show scanConds rest g lt (acc ++ [c]) = _
        rw [ih, List.append_assoc]
        rfl

/-- `optField` on a multi-condition list, characterized through the spec-side
`lastGte`/`lastLte`/`nonBounds` (shared by the claims below). -/
theorem optField_multi (l : List PyVal) (hl : 2 ≤ l.length) :
    optField (.list l) =
      match lastGte l, lastLte l with
      | some g, some lt =>
        if (nonBounds l).isEmpty then PyVal.list [.str "between", .list [g, lt]]
        else .list (.list [.str "between", .list [g, lt]] :: nonBounds l)
      | _, _ => .list l := by
  simp only [optField]
  rw [if_pos hl, scanConds_eq, optOr_none_right, optOr_none_right]
  cases lastGte l <;> cases lastLte l <;> simp [List.nil_append]

theorem getGte_none_of_nonbound (c : PyVal) (h : isBound c = false) : getGte c = none := by
  rw [isBound] at h
  cases hgc : getGte c with
  | none => rfl
  | some v => rw [hgc] at h; simp at h

theorem isBound_false_of_mem_nonBounds (l : List PyVal) (c : PyVal) (h : c ∈ nonBounds l) :
    isBound c = false := by
  rw [nonBounds] at h
  have h2 := (List.mem_filter.mp h).2
  simpa using h2

theorem optField_keep_of_no_gte (l2 : List PyVal) (h : ∀ c ∈ l2, getGte c = none) :
    optField (.list l2) = .list l2 := by
  by_cases hl : 2 ≤ l2.length
  · have hng : lastGte l2 = none := by
      rw [lastGte, List.filterMap_eq_nil_iff.mpr h]
      rfl
    rw [optField_multi l2 hl, hng]
  · simp only [optField]
    rw [if_neg hl]

theorem optField_between_fixed (g lt : PyVal) :
    optField (.list [.str "between", .list [g, lt]]) =
      .list [.str "between", .list [g, lt]] := by
  by_cases hg : pyIsStr g ">=" = true
  · have hgg : g = .str ">=" := (pyIsStr_iff g ">=").mp hg
    subst hgg
    rw [optField_multi [PyVal.str "between", PyVal.list [PyVal.str ">=", lt]] (by simp)]
    rfl
  · refine optField_keep_of_no_gte _ ?_
    intro c hc
    rcases List.mem_cons.mp hc with rfl | hc2
    · rfl
    · rcases List.mem_cons.mp hc2 with rfl | hc3
      · simp [getGte, hg]
      · exact absurd hc3 (List.not_mem_nil c)

theorem optField_idem (v : PyVal) : optField (optField v) = optField v := by
  cases v with
  | list l =>
    by_cases hl : 2 ≤ l.length
    · cases hg : lastGte l with
      | none =>
        have h1 : optField (.list l) = .list l := by
          rw [optField_multi l hl, hg]
        rw [h1]
        exact h1
      | some g =>
        cases hlt : lastLte l with
        | none =>
          have h1 : optField (.list l) = .list l := by
            rw [optField_multi l hl, hg, hlt]
          rw [h1]
          exact h1
        | some lt =>
          have h1 : optField (.list l) =
              if (nonBounds l).isEmpty then PyVal.list [.str "between", .list [g, lt]]
              else .list (.list [.str "between", .list [g, lt]] :: nonBounds l) := by
            rw [optField_multi l hl, hg, hlt]
          cases hne : (nonBounds l).isEmpty with
          | true =>
            rw [hne] at h1
            simp only [if_true] at h1
            rw [h1]
            exact optField_between_fixed g lt
          | false =>
            rw [hne] at h1
            simp only [Bool.false_eq_true, if_false] at h1
            rw [h1]
            refine optField_keep_of_no_gte _ ?_
            intro c hc
            rcases List.mem_cons.mp hc with rfl | hc2
            · rfl
            · exact getGte_none_of_nonbound c (isBound_false_of_mem_nonBounds l c hc2)
    · have h1 : optField (.list l) = .list l := by
        simp only [optField]
        rw [if_neg hl]
      rw [h1]
      exact h1
  | int n => rfl
  | float q => rfl
  | bool b => rfl
  | str s => rfl

theorem processPart_no_colon (d : FilterDict) (rawPart : List Char)
    (h : (pyStripL rawPart).contains ':' = false) : processPart d rawPart = .ok d := by
  simp only [processPart]
  rw [h]
  rfl

theorem foldlM_processPart_skip (ps : List (List Char)) :
    ∀ d : FilterDict, (∀ p ∈ ps, (pyStripL p).contains ':' = false) →
      List.foldlM processPart d ps = .ok d := by
  induction ps with
  | nil => intro d _; rfl
  | cons p rest ih =>
    intro d h
    rw [List.foldlM_cons, processPart_no_colon d p (h p (List.mem_cons_self p rest))]
    exact ih d (fun q hq => h q (List.mem_cons_of_mem p hq))

theorem boolOrStr_not_list (v : List Char) : ∀ xs, boolOrStr v ≠ .list xs := by
  intro xs
  simp only [boolOrStr]
  split
  · intro h; cases h
  · split
    · intro h; cases h
    · intro h; cases h

theorem convert_value_not_list (v : List Char) : ∀ xs, _convert_value v ≠ .list xs := by
  intro xs
  simp only [_convert_value]
  split
  · split
    · intro h; cases h
    · exact boolOrStr_not_list _ xs
  · split
    · intro h; cases h
    · exact boolOrStr_not_list _ xs

theorem isCondPair_convert_value (v : List Char) : isCondPair (_convert_value v) = false := by
  cases hcv : _convert_value v with
  | list xs => exact absurd hcv (convert_value_not_list v xs)
  | int n => rfl
  | float q => rfl
  | bool b => rfl
  | str s => rfl

theorem buildCondition_shape (op vstr : List Char) (p : PyVal)
    (h : buildCondition op vstr = .ok p) : ∃ s x, p = .list [.str s, x] := by
  simp only [buildCondition] at h
  split at h
  · exact ⟨_, _, (Except.ok.inj h).symm⟩
  · split at h
    · split at h
      · exact ⟨_, _, (Except.ok.inj h).symm⟩
      · cases h
    · split at h
      · split at h
        · exact ⟨_, _, (Except.ok.inj h).symm⟩
        · split at h
          · exact ⟨_, _, (Except.ok.inj h).symm⟩
          · exact ⟨_, _, (Except.ok.inj h).symm⟩
      · split at h
        · exact ⟨_, _, (Except.ok.inj h).symm⟩
        · exact ⟨_, _, (Except.ok.inj h).symm⟩

theorem isCondPair_buildCondition (op vstr : List Char) (p : PyVal)
    (h : buildCondition op vstr = .ok p) : isCondPair p = false := by
  obtain ⟨s, x, rfl⟩ := buildCondition_shape op vstr p h
  rfl

/-! ### Claims -/

/-- C1, counterexample: a field occurring in three well-formed clauses does
not get the flat list of its three predicates — the third accumulation step
re-wraps the two-element list `["a", "b"]` (its first element is not a list),
so `"f:a,f:b,f:c"` accumulates `[["a", "b"], "c"]`, not `["a", "b", "c"]`. -/
theorem accumulation_not_flat_counterexample :
    parseAccum "f:a,f:b,f:c" = .ok [("f", .list [.list [.str "a", .str "b"], .str "c"])] ∧
    PyVal.list [.list [.str "a", .str "b"], .str "c"] ≠
      PyVal.list [.str "a", .str "b", .str "c"] :=
  ⟨rfl, by decide⟩

/-- C1 (amended): the first predicate of a field is stored directly; when a
second predicate arrives the stored single predicate is wrapped into a
one-element list and the new predicate appended, so a field's second predicate
always yields the flat two-element list — because no single stored predicate
(operator conditions from `buildCondition`, bare coerced values from
`_convert_value`) is a two-element list whose first element is a list.  A
subsequent predicate is appended flat only when the accumulated value is a
two-element list whose first element is a list; otherwise the accumulated
value is itself re-wrapped, nesting the earlier predicates. -/
theorem accumulation_step_spec :
    (∀ (d : FilterDict) (f : String) (c : PyVal), dlookup d f = none →
        addCondition d f c = dset d f c) ∧
    (∀ (d : FilterDict) (f : String) (v c : PyVal), dlookup d f = some v →
        isCondPair v = false → addCondition d f c = dset d f (.list [v, c])) ∧
    (∀ (d : FilterDict) (f : String) (l : List PyVal) (c : PyVal),
        dlookup d f = some (.list l) → isCondPair (.list l) = true →
        addCondition d f c = dset d f (.list (l ++ [c]))) ∧
    (∀ (op vstr : List Char) (p : PyVal), buildCondition op vstr = .ok p →
        isCondPair p = false) ∧
    (∀ vstr : List Char, isCondPair (_convert_value vstr) = false) := by
  refine ⟨?_, ?_, ?_, isCondPair_buildCondition, isCondPair_convert_value⟩
  · intro d f c h
    simp only [addCondition, h]
  · intro d f v c h h2
    simp only [addCondition, h]
    cases v with
    | list l => simp only [appendCond]; rw [if_neg (by simp [h2])]
    | int n => rfl
    | float q => rfl
    | bool b => rfl
    | str s => rfl
  · intro d f l c h h2
    simp only [addCondition, h, appendCond]
    rw [if_pos h2]

/-- Witness for C1 (amended) at concrete inputs: a fresh field stores its
predicate directly, a second predicate yields the flat pair, and a third
operator condition is appended flat when the accumulated value passes the
two-element-list-of-lists test. -/
theorem accumulation_step_spec_witness :
    addCondition [] "f" (.str "a") = [("f", .str "a")] ∧
    addCondition [("f", .str "a")] "f" (.str "b") = [("f", .list [.str "a", .str "b"])] ∧
    addCondition [("f", .list [.list [.str ">", .int 1], .list [.str "<", .int 5]])] "f"
        (.list [.str "!=", .int 3]) =
      [("f", .list [.list [.str ">", .int 1], .list [.str "<", .int 5],
        .list [.str "!=", .int 3]])] ∧
    isCondPair (_convert_value ['a']) = false :=
  ⟨(accumulation_step_spec.1 [] "f" (.str "a") rfl).trans rfl,
   (accumulation_step_spec.2.1 [("f", .str "a")] "f" (.str "a") (.str "b") rfl rfl).trans rfl,
   (accumulation_step_spec.2.2.1 [("f", .list [.list [.str ">", .int 1], .list [.str "<", .int 5]])]
      "f" [.list [.str ">", .int 1], .list [.str "<", .int 5]] (.list [.str "!=", .int 3])
      rfl rfl).trans rfl,
   accumulation_step_spec.2.2.2.2 ['a']⟩

/-- C3, counterexample: clauses with an empty field (`":x"`) or a missing
value portion (`"f:"`, dangling operator `"f:>:"`) are not skipped — each
contributes an entry to the output mapping (the claim says they contribute
none). -/
theorem malformed_clause_contributes_counterexample :
    parse_filter_string ":x" = .ok [("", .str "x")] ∧
    parse_filter_string "f:" = .ok [("f", .str "")] ∧
    parse_filter_string "f:>:" = .ok [("f", .list [.str ">", .str ""])] ∧
    ([("", PyVal.str "x")] : FilterDict) ≠ [] :=
  ⟨rfl, rfl, rfl, by decide⟩

/-- C3 (amended): a clause whose stripped text contains no colon is silently
skipped — it leaves the accumulated mapping unchanged and raises no error.
(Clauses with an empty field or a missing value are not skipped: they
contribute an entry under the empty-string key, respectively with the empty
string as value.) -/
theorem no_colon_clause_skipped :
    ∀ (d : FilterDict) (part : List Char), (pyStripL part).contains ':' = false →
      processPart d part = .ok d :=
  fun d part h => processPart_no_colon d part h

/-- Witness for C3 (amended): the colon-free clause `"abc"` is skipped. -/
theorem no_colon_clause_skipped_witness :
    (pyStripL "abc".toList).contains ':' = false ∧
      processPart [("g", PyVal.int 7)] "abc".toList = .ok [("g", PyVal.int 7)] :=
  ⟨by decide, no_colon_clause_skipped [("g", PyVal.int 7)] "abc".toList (by decide)⟩

/-- C6, counterexample: on a non-empty input with no well-formed clause the
parser returns the empty mapping, not `None` — `format_filters_for_api` on
`"abc"` yields `some {}` (an empty dict), which is not the absent filter. -/
theorem empty_result_counterexample :
    format_filters_for_api (some "abc") = .ok (some []) ∧
    (some ([] : FilterDict)) ≠ (none : Option FilterDict) :=
  ⟨rfl, by decide⟩

/-- C6 (amended): for every non-empty input string in which no clause
produces a mapping entry (none of its comma-separated parts contains a
colon), the parse entry point returns the empty mapping — not `None`. -/
theorem no_entries_empty_mapping :
    ∀ (s : String), s ≠ "" →
      (∀ p ∈ splitOnChar ',' s.toList, (pyStripL p).contains ':' = false) →
      format_filters_for_api (some s) = .ok (some []) := by
  intro s hs h
  simp only [format_filters_for_api]
  rw [if_neg hs]
  have hacc : parseAccum s = .ok [] := foldlM_processPart_skip (splitOnChar ',' s.toList) [] h
  simp only [parse_filter_string, hacc]
  rfl

/-- Witness for C6 (amended) at `"abc"`. -/
theorem no_entries_empty_mapping_witness :
    ("abc" ≠ "") ∧ format_filters_for_api (some "abc") = .ok (some []) :=
  ⟨by decide, no_entries_empty_mapping "abc" (by decide) (by decide)⟩

/-- C7: calling the parse entry point with a null filter string or with the
empty string returns `None` (absent filter). -/
theorem parse_null_and_empty_return_none :
    format_filters_for_api none = .ok none ∧ format_filters_for_api (some "") = .ok none :=
  ⟨rfl, rfl⟩

/-- C4, counterexample: a clause whose operator lower-cases to `between` but
was written upper-case emits the operator as written, not the canonical
lowercase `"between"` tag the claim requires. -/
theorem between_case_counterexample :
    parse_filter_string "date:BETWEEN:2025-01-01|2025-12-31" =
      .ok [("date", .list [.str "BETWEEN", .list [.str "2025-01-01", .str "2025-12-31"]])] ∧
    PyVal.str "BETWEEN" ≠ PyVal.str "between" :=
  ⟨rfl, by decide⟩

/-- C4 (amended): for a clause whose operator lower-cases to `between`, if the
value splits on `|` into exactly 2 tokens the clause produces
`[operator-as-written, [coerce(low), coerce(high)]]` (equal to
`["between", ...]` exactly when the caller wrote the operator in lowercase);
otherwise the parser raises a `ValueError`-class failure whose message names
the offending raw value string — and this is the only clause type that
raises. -/
theorem between_clause_spec :
    (∀ (op vstr lo hi : List Char), lowerL op = "between".toList →
        splitOnChar '|' vstr = [lo, hi] →
        buildCondition op vstr =
          .ok (.list [.str op.asString,
            .list [_convert_value (pyStripL lo), _convert_value (pyStripL hi)]])) ∧
    (∀ (op vstr : List Char), lowerL op = "between".toList →
        (splitOnChar '|' vstr).length ≠ 2 →
        buildCondition op vstr =
          .error ("Between operator requires exactly 2 values separated by |, got: "
            ++ vstr.asString)) ∧
    (∀ (op vstr : List Char) (e : String), buildCondition op vstr = .error e →
        lowerL op = "between".toList ∧ (splitOnChar '|' vstr).length ≠ 2 ∧
        e = "Between operator requires exactly 2 values separated by |, got: "
          ++ vstr.asString) ∧
    parse_filter_string "date:between:2025-01-01" =
      .error "Between operator requires exactly 2 values separated by |, got: 2025-01-01" := by
  refine ⟨?_, ?_, ?_, rfl⟩
  · intro op vstr lo hi h1 h2
    simp only [buildCondition]
    rw [h1, h2, if_neg (by decide), if_pos (by decide),
      if_pos (show (List.map pyStripL [lo, hi]).length = 2 from by simp)]
    rfl
  · intro op vstr h1 h2
    simp only [buildCondition]
    rw [h1, if_neg (by decide), if_pos (by decide),
      if_neg (by rw [List.length_map]; exact h2)]
  · intro op vstr e h
    simp only [buildCondition] at h
    split at h
    · exact Except.noConfusion h
    · next hin =>
      split at h
      · next hbet =>
        split at h
        · exact Except.noConfusion h
        · next hlen =>
          refine ⟨beq_iff_eq.mp hbet, by rw [List.length_map] at hlen; exact hlen, ?_⟩
          exact (Except.error.inj h).symm
      · split at h
        · split at h
          · exact Except.noConfusion h
          · split at h
            · exact Except.noConfusion h
            · exact Except.noConfusion h
        · split at h
          · exact Except.noConfusion h
          · exact Except.noConfusion h

/-- Witness for C4 (amended): a lowercase `between` clause with two tokens
produces the pair form; an uppercase `BETWEEN` clause with one token raises
the error naming the value. -/
theorem between_clause_spec_witness :
    buildCondition "between".toList "1|2".toList =
      .ok (.list [.str "between", .list [.int 1, .int 2]]) ∧
    buildCondition "BETWEEN".toList "2025-01-01".toList =
      .error "Between operator requires exactly 2 values separated by |, got: 2025-01-01" :=
  ⟨(between_clause_spec.1 "between".toList "1|2".toList ['1'] ['2'] (by decide)
      (by decide)).trans rfl,
   (between_clause_spec.2.1 "BETWEEN".toList "2025-01-01".toList (by decide)
      (by decide)).trans rfl⟩

/-- C8, counterexample: the emitted tag of an `in` clause written upper-case
is `"IN"`, not the canonical lowercase `"in"` the claim requires for every
casing. -/
theorem operator_case_counterexample :
    parse_filter_string "status:IN:Open" =
      .ok [("status", .list [.str "IN", .list [.str "Open"]])] ∧
    PyVal.str "IN" ≠ PyVal.str "in" :=
  ⟨rfl, by decide⟩

/-- C8 (amended): dispatch is on the lower-cased operator, but the emitted
tag for `in`/`not_in` preserves the caller's casing with underscores replaced
by spaces — the canonical lowercase `"in"`/`"not in"` results exactly when
the caller wrote the operator in lowercase; `not_like` always emits the
canonical `"not like"`. -/
theorem operator_dispatch_case_spec :
    (∀ (op vstr : List Char),
        (lowerL op = "in".toList ∨ lowerL op = "not_in".toList) →
        buildCondition op vstr =
          .ok (.list [.str (replUnd op).asString,
            .list (((splitOnChar '|' vstr).map pyStripL).map _convert_value)])) ∧
    (∀ vstr : List Char, buildCondition "in".toList vstr =
        .ok (.list [.str "in",
          .list (((splitOnChar '|' vstr).map pyStripL).map _convert_value)])) ∧
    (∀ vstr : List Char, buildCondition "not_in".toList vstr =
        .ok (.list [.str "not in",
          .list (((splitOnChar '|' vstr).map pyStripL).map _convert_value)])) ∧
    (∀ (op vstr : List Char), lowerL op = "not_like".toList →
        buildCondition op vstr = .ok (.list [.str "not like", .str vstr.asString])) := by
  refine ⟨?_, fun vstr => rfl, fun vstr => rfl, ?_⟩
  · intro op vstr h
    rcases h with h | h <;>
      (simp only [buildCondition]; rw [h, if_pos (by decide)])
  · intro op vstr h
    simp only [buildCondition]
    rw [h, if_neg (by decide), if_neg (by decide), if_neg (by decide), if_pos (by decide)]

/-- Witness for C8 (amended): an upper-case `IN` keeps its casing, and an
upper-case `NOT_LIKE` still emits the canonical lowercase tag. -/
theorem operator_dispatch_case_spec_witness :
    buildCondition "IN".toList "Open".toList =
      .ok (.list [.str "IN", .list [.str "Open"]]) ∧
    buildCondition "NOT_LIKE".toList "%x%".toList =
      .ok (.list [.str "not like", .str "%x%"]) :=
  ⟨(operator_dispatch_case_spec.1 "IN".toList "Open".toList (Or.inl (by decide))).trans rfl,
   (operator_dispatch_case_spec.2.2.2 "NOT_LIKE".toList "%x%".toList (by decide)).trans rfl⟩

/-- C10: an `in`/`not_in` clause whose value string contains no `|` emits a
one-element list holding the single coerced token, never a bare scalar —
e.g. `"status:in:Open"` yields `{"status": ["in", ["Open"]]}`. -/
theorem in_operator_singleton_value :
    (∀ (op vstr : List Char),
        (lowerL op = "in".toList ∨ lowerL op = "not_in".toList) →
        vstr.contains '|' = false →
        buildCondition op vstr =
          .ok (.list [.str (replUnd op).asString, .list [_convert_value (pyStripL vstr)]])) ∧
    parse_filter_string "status:in:Open" =
      .ok [("status", .list [.str "in", .list [.str "Open"]])] := by
  refine ⟨?_, rfl⟩
  intro op vstr h hn
  have hs : splitOnChar '|' vstr = [vstr] := splitOnChar_no_sep '|' vstr hn
  rcases h with h | h <;>
    (simp only [buildCondition]; rw [h, if_pos (by decide), hs]; rfl)

/-- Witness for C10 at `in`/`"Open"`. -/
theorem in_operator_singleton_value_witness :
    ("Open".toList.contains '|') = false ∧
    buildCondition "in".toList "Open".toList = .ok (.list [.str "in", .list [.str "Open"]]) :=
  ⟨by decide,
   (in_operator_singleton_value.1 "in".toList "Open".toList (Or.inl (by decide))
      (by decide)).trans rfl⟩

/-- Optimization acts entry-wise on the dict (definitional unfolding). -/
theorem optimize_cons (p : String × PyVal) (rest : FilterDict) :
    _optimize_range_filters (p :: rest) = (p.1, optField p.2) :: _optimize_range_filters rest :=
  rfl

/-- C2: for every field value that is a list of at least 2 conditions, the
range-optimization pass keeps the last `[">=", g]` and last `["<=", l]`
found, keeps all other conditions unchanged in original order, and when both
bounds exist replaces them by the single `["between", [g, l]]` condition —
the field's sole value when no other conditions remain, else prepended to
them; when both bounds are not present, or the value is not a
multi-condition list, the value passes through unchanged.  Concretely,
`"date:>=:2024-01-01,date:<=:2024-01-31"` parses to the merged `between`. -/
theorem optimize_range_spec :
    (∀ (l : List PyVal), 2 ≤ l.length →
      optField (.list l) =
        match lastGte l, lastLte l with
        | some g, some lt =>
          if (nonBounds l).isEmpty then PyVal.list [.str "between", .list [g, lt]]
          else .list (.list [.str "between", .list [g, lt]] :: nonBounds l)
        | _, _ => .list l) ∧
    (∀ v : PyVal, isMultiCondList v = false → optField v = v) ∧
    parse_filter_string "date:>=:2024-01-01,date:<=:2024-01-31" =
      .ok [("date", .list [.str "between", .list [.str "2024-01-01", .str "2024-01-31"]])] := by
  refine ⟨optField_multi, ?_, rfl⟩
  intro v hv
  cases v with
  | list l =>
    have hl : ¬ 2 ≤ l.length := by simpa [isMultiCondList] using hv
    simp only [optField]
    rw [if_neg hl]
  | int n => rfl
  | float q => rfl
  | bool b => rfl
  | str s => rfl

/-- Witness for C2: a `>=`/`<=` pair alone merges into the bare `between`
condition; a single (non-list) value passes through unchanged. -/
theorem optimize_range_spec_witness :
    optField (.list [.list [.str ">=", .str "a"], .list [.str "<=", .str "b"]]) =
      .list [.str "between", .list [.str "a", .str "b"]] ∧
    isMultiCondList (PyVal.int 5) = false ∧ optField (PyVal.int 5) = PyVal.int 5 :=
  ⟨(optimize_range_spec.1 [.list [.str ">=", .str "a"], .list [.str "<=", .str "b"]]
      (by decide)).trans (by decide),
   by decide,
   optimize_range_spec.2.1 (PyVal.int 5) rfl⟩

/-- C5: `_convert_value` coincides with the spec's ordered coercion rules
(`coerceSpec`, written from §4.3): trim, float if the token has a `'.'` and
parses as a float literal, else integer, else the boolean word forms, else
the trimmed string — and the numeric tokens `"1"`/`"0"` coerce to the
integers 1/0, never to booleans.  Coercion is total by construction. -/
theorem convert_value_spec :
    (∀ cs : List Char, _convert_value cs = coerceSpec cs) ∧
    _convert_value "1".toList = .int 1 ∧ _convert_value "0".toList = .int 0 := by
  refine ⟨?_, rfl, rfl⟩
  intro cs
  simp only [_convert_value, coerceSpec]
  by_cases hd : (pyStripL cs).contains '.'
  · rw [if_pos hd, if_pos hd]
    cases hf : pyFloat? (pyStripL cs) with
    | some q => rfl
    | none =>
      rw [pyInt?_none_of_dot (pyStripL cs) ((contains_iff_mem _ _).mp hd)]
  · rw [if_neg hd, if_neg hd]

/-- C9: the range-optimization pass is idempotent — running
`_optimize_range_filters` twice yields the same mapping as running it
once, for every filter mapping. -/
theorem optimize_range_idempotent (d : FilterDict) :
    _optimize_range_filters (_optimize_range_filters d) = _optimize_range_filters d := by
  induction d with
  | nil => rfl
  | cons p rest ih =>
    rw [show _optimize_range_filters (p :: rest) =
      (p.1, optField p.2) :: _optimize_range_filters rest from rfl]
    rw [show _optimize_range_filters ((p.1, optField p.2) :: _optimize_range_filters rest) =
      (p.1, optField (optField p.2)) :: _optimize_range_filters (_optimize_range_filters rest)
      from rfl]
    rw [optField_idem, ih]

end Frappe

